import Mathlib

/-!
Verification development for `Sim_Opti_Rutas.py`, a 3-day route optimiser over a
fixed set of 8 Houston locations.  The Python source is embedded shallowly:

* the fixed tables `DISTANCES_KM`, `TIMES_AT_LOCATION`, `LOCATIONS` are copied
  verbatim (distances and dwell times are integers, so `ℕ` is exact);
* route times (Python floats; every value here is an integer number of km
  divided by 60 plus integer hours, hence exact) are modelled in `ℚ`;
* the triple loop of `find_best_routes` is modelled as a fold (`search_loop`)
  over the explicit enumeration `candidates`, in exactly the order produced by
  `itertools.permutations` and the ascending small-int iteration order of the
  Python set difference, including the early `return None` that the source
  performs inside the innermost loop when the fixed day exceeds the ceiling;
* the daily ceiling is kept as a parameter (`find_best_routes_with`), with
  `find_best_routes = find_best_routes_with MAX_TIME_PER_DAY` matching the
  hard-coded configuration of the source.
-/

namespace SimOptiRutas

/-- Distance matrix in km (`DISTANCES_KM` in the source). -/
def DISTANCES_KM : List (List ℕ) :=
  [[0, 30, 25, 35, 40, 32, 45, 35],
   [30, 0, 12, 18, 45, 15, 35, 5],
   [25, 12, 0, 8, 42, 5, 38, 2],
   [35, 18, 8, 0, 40, 3, 39, 5],
   [40, 45, 42, 40, 0, 38, 20, 35],
   [32, 15, 5, 3, 38, 0, 36, 1],
   [45, 35, 38, 39, 20, 36, 0, 30],
   [35, 5, 2, 5, 35, 1, 30, 0]]

/-- Dwell time (hours) spent at each location (`TIMES_AT_LOCATION`). -/
def TIMES_AT_LOCATION : List ℕ := [2, 3, 3, 5, 8, 2, 3, 1]

/-- Location names, index-aligned with the two tables above (`LOCATIONS`). -/
def LOCATIONS : List String :=
  ["Aeropuerto", "Daikin Park", "Museo de la Salud", "NRG Stadium",
   "NASA", "Toyota Center", "USS Texas Museum", "Hotel"]

/-- Daily time ceiling in hours (`MAX_TIME_PER_DAY = 12`). -/
def MAX_TIME_PER_DAY : ℚ := 12

/-- Average speed used to convert km to hours (`VELOCIDAD_PROMEDIO_KMH = 60`). -/
def VELOCIDAD_PROMEDIO_KMH : ℚ := 60

/-- Matrix lookup `DISTANCES_KM[a, b]`. -/
def dist (a b : ℕ) : ℕ := (DISTANCES_KM.getD a []).getD b 0

/-- Table lookup `TIMES_AT_LOCATION[a]`. -/
def dwell (a : ℕ) : ℕ := TIMES_AT_LOCATION.getD a 0

/-- Index of a location name in `LOCATIONS` (`get_location_index`). -/
def get_location_index (loc_name : String) : ℕ := List.indexOf loc_name LOCATIONS

/-- Total elapsed time of a route: for every consecutive pair the travel time
`DISTANCES_KM[from, to] / VELOCIDAD_PROMEDIO_KMH` plus the dwell time of the
arrival location (`calculate_route_time`). -/
def calculate_route_time : List ℕ → ℚ
  | idx_from :: idx_to :: rest =>
      (dist idx_from idx_to : ℚ) / VELOCIDAD_PROMEDIO_KMH + (dwell idx_to : ℚ)
        + calculate_route_time (idx_to :: rest)
  | _ => 0

/-- Total distance of a route: sum of `DISTANCES_KM[from, to]` over consecutive
pairs (`calculate_route_distance`). -/
def calculate_route_distance : List ℕ → ℕ
  | idx_from :: idx_to :: rest =>
      dist idx_from idx_to + calculate_route_distance (idx_to :: rest)
  | _ => 0

def idx_aeropuerto : ℕ := get_location_index ("Aeropuerto")

def idx_hotel : ℕ := get_location_index ("Hotel")

def idx_nasa : ℕ := get_location_index ("NASA")

/-- Free locations: every index except the airport, the hotel and NASA
(`places_to_visit` in `find_best_routes`). -/
def places_to_visit : List ℕ :=
  (List.range LOCATIONS.length).filter
    (fun i => ¬ (i = idx_aeropuerto ∨ i = idx_hotel ∨ i = idx_nasa))

/-- All ways of removing one element from a list, returned as
(chosen element, remaining elements in order), in list order.  This is the
selection order used by `itertools.permutations`. -/
def picks : List ℕ → List (ℕ × List ℕ)
  | [] => []
  | a :: as => (a, as) :: (picks as).map (fun p => (p.1, a :: p.2))

/-- All length-`k` draws without repetition from `pool`, in exactly the order
produced by `itertools.permutations(pool, k)`. -/
def kperms : ℕ → List ℕ → List (List ℕ)
  | 0, _ => [[]]
  | k + 1, pool => (picks pool).flatMap (fun p => (kperms k p.2).map (fun q => p.1 :: q))

/-- Day-1 route `[idx_aeropuerto] + day1_places + [idx_hotel]` for a candidate
split `c = (day1_places, day3_places)`. -/
def day1_route (c : List ℕ × List ℕ) : List ℕ := idx_aeropuerto :: c.1 ++ [idx_hotel]

/-- The fixed Day-2 route `[idx_hotel, idx_nasa, idx_hotel]`. -/
def day2_route : List ℕ := [idx_hotel, idx_nasa, idx_hotel]

/-- Day-3 route `[idx_hotel] + day3_places + [idx_aeropuerto]`. -/
def day3_route (c : List ℕ × List ℕ) : List ℕ := idx_hotel :: c.2 ++ [idx_aeropuerto]

/-- The three-route combination `[day1_route, day2_route, day3_route]` stored in
`best_routes_combination` for a candidate split. -/
def routesOf (c : List ℕ × List ℕ) : List (List ℕ) := [day1_route c, day2_route, day3_route c]

/-- The `current_distance` of a candidate: the three per-day distances summed. -/
def totalDist (c : List ℕ × List ℕ) : ℕ :=
  calculate_route_distance (day1_route c) + calculate_route_distance day2_route
    + calculate_route_distance (day3_route c)

/-- The full enumeration of the triple loop in `find_best_routes`, in source
order: split size `day1_size` from `range(1, len(places_to_visit))`, then every
ordered `day1_places` selection, then every ordering of the remaining
locations.  The Python set difference iterates the remaining small integers in
ascending order, which `List.filter` over the ascending `places_to_visit`
reproduces. -/
def candidates : List (List ℕ × List ℕ) :=
  (List.range' 1 (places_to_visit.length - 1)).flatMap (fun day1_size =>
    (kperms day1_size places_to_visit).flatMap (fun day1_places =>
      (kperms (places_to_visit.filter (fun x => x ∉ day1_places)).length
          (places_to_visit.filter (fun x => x ∉ day1_places))).map (fun day3_places =>
        (day1_places, day3_places))))

/-- Comparison `current_distance < best_total_distance` where the initial best
is `float('inf')` (modelled as `none`): against `none` every value wins. -/
def lt_best (current : ℕ) : Option ℕ → Prop
  | none => True
  | some b => current < b

instance (current : ℕ) (bd : Option ℕ) : Decidable (lt_best current bd) :=
  match bd with
  | none => isTrue trivial
  | some b => inferInstanceAs (Decidable (current < b))

/-- The body of the triple loop of `find_best_routes`, folded over the
candidate list: skip a candidate whose Day-1 time exceeds the ceiling, return
`none` outright when the fixed Day-2 route exceeds the ceiling, skip when Day 3
exceeds it, and otherwise keep the candidate if its total distance beats the
best recorded so far (strict `<`). -/
def search_loop (ceiling : ℚ) :
    List (List ℕ × List ℕ) → Option (List (List ℕ)) → Option ℕ → Option (List (List ℕ))
  | [], best, _ => best
  | c :: rest, best, best_total =>
      if calculate_route_time (day1_route c) > ceiling then
        search_loop ceiling rest best best_total
      else if calculate_route_time day2_route > ceiling then
        none
      else if calculate_route_time (day3_route c) > ceiling then
        search_loop ceiling rest best best_total
      else if lt_best (totalDist c) best_total then
        search_loop ceiling rest (some (routesOf c)) (some (totalDist c))
      else
        search_loop ceiling rest best best_total

/-- The search of `find_best_routes`, with the daily ceiling exposed as the
configuration parameter it is in the spec. -/
def find_best_routes_with (ceiling : ℚ) : Option (List (List ℕ)) :=
  search_loop ceiling candidates none none

/-- The optimiser of the source, at its hard-coded ceiling of 12 hours. -/
def find_best_routes : Option (List (List ℕ)) := find_best_routes_with MAX_TIME_PER_DAY

/-- Number of candidate iterations the loop body starts before the function
returns; mirrors the control flow of `search_loop`, counting one for each
candidate whose Day-1 route is built. -/
def search_examined (ceiling : ℚ) : List (List ℕ × List ℕ) → ℕ
  | [] => 0
  | c :: rest =>
      if calculate_route_time (day1_route c) > ceiling then
        1 + search_examined ceiling rest
      else if calculate_route_time day2_route > ceiling then
        1
      else if calculate_route_time (day3_route c) > ceiling then
        1 + search_examined ceiling rest
      else
        1 + search_examined ceiling rest

/-- Route time scaled by 60: an exact integer count of minutes.  Used to settle
all concrete route-time comparisons by kernel computation on `ℕ`. -/
def route_time60 : List ℕ → ℕ
  | idx_from :: idx_to :: rest =>
      dist idx_from idx_to + 60 * dwell idx_to + route_time60 (idx_to :: rest)
  | _ => 0

/-- The search with every time comparison scaled by 60 into `ℕ`; proved equal
to `search_loop` below and used for kernel evaluation. -/
def search_loop60 (ceil60 : ℕ) :
    List (List ℕ × List ℕ) → Option (List (List ℕ)) → Option ℕ → Option (List (List ℕ))
  | [], best, _ => best
  | c :: rest, best, best_total =>
      if route_time60 (day1_route c) > ceil60 then
        search_loop60 ceil60 rest best best_total
      else if route_time60 day2_route > ceil60 then
        none
      else if route_time60 (day3_route c) > ceil60 then
        search_loop60 ceil60 rest best best_total
      else if lt_best (totalDist c) best_total then
        search_loop60 ceil60 rest (some (routesOf c)) (some (totalDist c))
      else
        search_loop60 ceil60 rest best best_total

/-- Counting variant of `search_examined` scaled into `ℕ` comparisons. -/
def search_examined60 (ceil60 : ℕ) : List (List ℕ × List ℕ) → ℕ
  | [] => 0
  | c :: rest =>
      if route_time60 (day1_route c) > ceil60 then
        1 + search_examined60 ceil60 rest
      else if route_time60 day2_route > ceil60 then
        1
      else if route_time60 (day3_route c) > ceil60 then
        1 + search_examined60 ceil60 rest
      else
        1 + search_examined60 ceil60 rest

/-- Feasibility of a candidate split: all three day routes within the ceiling. -/
def feasible (ceiling : ℚ) (c : List ℕ × List ℕ) : Prop :=
  calculate_route_time (day1_route c) ≤ ceiling ∧
    calculate_route_time day2_route ≤ ceiling ∧
    calculate_route_time (day3_route c) ≤ ceiling

/-- Lower-bound property of a recorded best distance `d`: no feasible candidate
in `cs` is strictly cheaper. -/
def KeepsMin (ceiling : ℚ) (cs : List (List ℕ × List ℕ)) (d : ℕ) : Prop :=
  ∀ x ∈ cs, feasible ceiling x → d ≤ totalDist x

/-- Route time exactly as the spec words it: the sum over consecutive pairs
(from, to) of `distance(from, to) / 60 + dwellTime(to)`, the dwell time being
charged for every arrival including the final anchor. -/
def route_time_spec (route : List ℕ) : ℚ :=
  ((route.zip route.tail).map (fun p => (dist p.1 p.2 : ℚ) / 60 + (dwell p.2 : ℚ))).sum

/-! ### Bridging the exact rational route time to its 60-fold integer scaling -/

theorem calculate_route_time_eq_time60 :
    ∀ r : List ℕ, calculate_route_time r = (route_time60 r : ℚ) / 60 := by
  intro r
  induction r with
  | nil => simp [calculate_route_time, route_time60]
  | cons a t ih =>
      cases t with
      | nil => simp [calculate_route_time, route_time60]
      | cons b rest =>
          simp only [calculate_route_time, route_time60, VELOCIDAD_PROMEDIO_KMH]
          rw [ih]
          push_cast
          ring

theorem route_time_gt_iff (r : List ℕ) (ceiling : ℚ) (c60 : ℕ)
    (h : (c60 : ℚ) = 60 * ceiling) :
    calculate_route_time r > ceiling ↔ route_time60 r > c60 := by
  rw [calculate_route_time_eq_time60, gt_iff_lt, lt_div_iff₀ (by norm_num : (0:ℚ) < 60),
    mul_comm, ← h, gt_iff_lt, Nat.cast_lt]

theorem route_time_le_iff (r : List ℕ) (ceiling : ℚ) (c60 : ℕ)
    (h : (c60 : ℚ) = 60 * ceiling) :
    calculate_route_time r ≤ ceiling ↔ route_time60 r ≤ c60 := by
  rw [← not_lt, ← not_lt, not_iff_not, ← gt_iff_lt, ← gt_iff_lt,
    route_time_gt_iff r ceiling c60 h]

theorem search_loop_eq_60 (ceiling : ℚ) (c60 : ℕ) (h : (c60 : ℚ) = 60 * ceiling) :
    ∀ (cs : List (List ℕ × List ℕ)) (best : Option (List (List ℕ))) (bt : Option ℕ),
      search_loop ceiling cs best bt = search_loop60 c60 cs best bt := by
  intro cs
  induction cs with
  | nil => intro best bt; rfl
  | cons c rest ih =>
      intro best bt
      simp only [search_loop, search_loop60]
      by_cases h1 : route_time60 (day1_route c) > c60
      · rw [if_pos ((route_time_gt_iff _ _ _ h).mpr h1), if_pos h1, ih]
      · rw [if_neg (fun hq => h1 ((route_time_gt_iff _ _ _ h).mp hq)), if_neg h1]
        by_cases h2 : route_time60 day2_route > c60
        · rw [if_pos ((route_time_gt_iff _ _ _ h).mpr h2), if_pos h2]
        · rw [if_neg (fun hq => h2 ((route_time_gt_iff _ _ _ h).mp hq)), if_neg h2]
          by_cases h3 : route_time60 (day3_route c) > c60
          · rw [if_pos ((route_time_gt_iff _ _ _ h).mpr h3), if_pos h3, ih]
          · rw [if_neg (fun hq => h3 ((route_time_gt_iff _ _ _ h).mp hq)), if_neg h3]
            by_cases h4 : lt_best (totalDist c) bt
            · rw [if_pos h4, if_pos h4, ih]
            · rw [if_neg h4, if_neg h4, ih]

theorem search_examined_eq_60 (ceiling : ℚ) (c60 : ℕ) (h : (c60 : ℚ) = 60 * ceiling) :
    ∀ cs : List (List ℕ × List ℕ), search_examined ceiling cs = search_examined60 c60 cs := by
  intro cs
  induction cs with
  | nil => rfl
  | cons c rest ih =>
      simp only [search_examined, search_examined60]
      by_cases h1 : route_time60 (day1_route c) > c60
      · rw [if_pos ((route_time_gt_iff _ _ _ h).mpr h1), if_pos h1, ih]
      · rw [if_neg (fun hq => h1 ((route_time_gt_iff _ _ _ h).mp hq)), if_neg h1]
        by_cases h2 : route_time60 day2_route > c60
        · rw [if_pos ((route_time_gt_iff _ _ _ h).mpr h2), if_pos h2]
        · rw [if_neg (fun hq => h2 ((route_time_gt_iff _ _ _ h).mp hq)), if_neg h2]
          by_cases h3 : route_time60 (day3_route c) > c60
          · rw [if_pos ((route_time_gt_iff _ _ _ h).mpr h3), if_pos h3, ih]
          · rw [if_neg (fun hq => h3 ((route_time_gt_iff _ _ _ h).mp hq)), if_neg h3, ih]

theorem find_best_routes_eq_60 : find_best_routes = search_loop60 720 candidates none none := by
  rw [find_best_routes, find_best_routes_with,
    search_loop_eq_60 MAX_TIME_PER_DAY 720 (by norm_num [MAX_TIME_PER_DAY])]

set_option maxRecDepth 4000 in
/-- Concrete value of the search at the source configuration, obtained by
kernel evaluation of the integer-scaled search. -/
theorem find_best_routes_eval :
    find_best_routes = some [[0, 2, 3, 5, 7], [7, 4, 7], [7, 1, 6, 0]] := by
  rw [find_best_routes_eq_60]
  decide

/-! ### Behaviour of the search fold -/

theorem day2_within_ceiling : ¬ calculate_route_time day2_route > MAX_TIME_PER_DAY := by
  rw [route_time_gt_iff day2_route MAX_TIME_PER_DAY 720 (by norm_num [MAX_TIME_PER_DAY])]
  decide

theorem search_loop_none_of_day2 (ceiling : ℚ)
    (h2 : calculate_route_time day2_route > ceiling) :
    ∀ cs : List (List ℕ × List ℕ), search_loop ceiling cs none none = none := by
  intro cs
  induction cs with
  | nil => rfl
  | cons c rest ih =>
      simp only [search_loop]
      by_cases h1 : calculate_route_time (day1_route c) > ceiling
      · rw [if_pos h1, ih]
      · rw [if_neg h1, if_pos h2]

theorem search_loop_some (ceiling : ℚ)
    (h2 : ¬ calculate_route_time day2_route > ceiling) :
    ∀ (cs : List (List ℕ × List ℕ)) (b : List (List ℕ)) (d : ℕ) (r : List (List ℕ)),
      search_loop ceiling cs (some b) (some d) = some r →
      (r = b ∧ KeepsMin ceiling cs d) ∨
      (∃ pre c post, cs = pre ++ c :: post ∧ feasible ceiling c ∧ r = routesOf c ∧
        totalDist c < d ∧ (∀ x ∈ pre, feasible ceiling x → totalDist c < totalDist x) ∧
        KeepsMin ceiling post (totalDist c)) := by
  intro cs
  induction cs with
  | nil =>
      intro b d r hr
      simp only [search_loop, Option.some.injEq] at hr
      exact Or.inl ⟨hr.symm, fun x hx => absurd hx (List.not_mem_nil x)⟩
  | cons c rest ih =>
      intro b d r hr
      simp only [search_loop] at hr
      by_cases h1 : calculate_route_time (day1_route c) > ceiling
      · rw [if_pos h1] at hr
        have hcinf : ¬ feasible ceiling c := fun hf => absurd hf.1 (not_le.mpr h1)
        rcases ih b d r hr with ⟨hrb, hk⟩ | ⟨pre, c', post, hcs, hf', hr', hlt', hpre', hk'⟩
        · refine Or.inl ⟨hrb, ?_⟩
          intro x hx hfx
          rcases List.mem_cons.mp hx with hxc | hxr
          · exact absurd (hxc ▸ hfx) hcinf
          · exact hk x hxr hfx
        · refine Or.inr ⟨c :: pre, c', post, by simp [hcs], hf', hr', hlt', ?_, hk'⟩
          intro x hx hfx
          rcases List.mem_cons.mp hx with hxc | hxp
          · exact absurd (hxc ▸ hfx) hcinf
          · exact hpre' x hxp hfx
      · rw [if_neg h1, if_neg h2] at hr
        by_cases h3 : calculate_route_time (day3_route c) > ceiling
        · rw [if_pos h3] at hr
          have hcinf : ¬ feasible ceiling c := fun hf => absurd hf.2.2 (not_le.mpr h3)
          rcases ih b d r hr with ⟨hrb, hk⟩ | ⟨pre, c', post, hcs, hf', hr', hlt', hpre', hk'⟩
          · refine Or.inl ⟨hrb, ?_⟩
            intro x hx hfx
            rcases List.mem_cons.mp hx with hxc | hxr
            · exact absurd (hxc ▸ hfx) hcinf
            · exact hk x hxr hfx
          · refine Or.inr ⟨c :: pre, c', post, by simp [hcs], hf', hr', hlt', ?_, hk'⟩
            intro x hx hfx
            rcases List.mem_cons.mp hx with hxc | hxp
            · exact absurd (hxc ▸ hfx) hcinf
            · exact hpre' x hxp hfx
        · rw [if_neg h3] at hr
          have hfc : feasible ceiling c := ⟨not_lt.mp h1, not_lt.mp h2, not_lt.mp h3⟩
          by_cases h4 : lt_best (totalDist c) (some d)
          · rw [if_pos h4] at hr
            have hlt : totalDist c < d := h4
            rcases ih (routesOf c) (totalDist c) r hr with
              ⟨hrb, hk⟩ | ⟨pre, c', post, hcs, hf', hr', hlt', hpre', hk'⟩
            · exact Or.inr ⟨[], c, rest, rfl, hfc, hrb, hlt,
                fun x hx => absurd hx (List.not_mem_nil x), hk⟩
            · refine Or.inr ⟨c :: pre, c', post, by simp [hcs], hf', hr',
                hlt'.trans hlt, ?_, hk'⟩
              intro x hx hfx
              rcases List.mem_cons.mp hx with hxc | hxp
              · rw [hxc]; exact hlt'
              · exact hpre' x hxp hfx
          · rw [if_neg h4] at hr
            have hge : d ≤ totalDist c := not_lt.mp h4
            rcases ih b d r hr with ⟨hrb, hk⟩ | ⟨pre, c', post, hcs, hf', hr', hlt', hpre', hk'⟩
            · refine Or.inl ⟨hrb, ?_⟩
              intro x hx hfx
              rcases List.mem_cons.mp hx with hxc | hxr
              · rw [hxc]; exact hge
              · exact hk x hxr hfx
            · refine Or.inr ⟨c :: pre, c', post, by simp [hcs], hf', hr', hlt', ?_, hk'⟩
              intro x hx hfx
              rcases List.mem_cons.mp hx with hxc | hxp
              · rw [hxc]; exact hlt'.trans_le hge
              · exact hpre' x hxp hfx

theorem search_loop_first (ceiling : ℚ)
    (h2 : ¬ calculate_route_time day2_route > ceiling) :
    ∀ (cs : List (List ℕ × List ℕ)) (r : List (List ℕ)),
      search_loop ceiling cs none none = some r →
      ∃ pre c post, cs = pre ++ c :: post ∧ feasible ceiling c ∧ r = routesOf c ∧
        (∀ x ∈ pre, feasible ceiling x → totalDist c < totalDist x) ∧
        KeepsMin ceiling post (totalDist c) := by
  intro cs
  induction cs with
  | nil => intro r hr; simp [search_loop] at hr
  | cons c rest ih =>
      intro r hr
      simp only [search_loop] at hr
      by_cases h1 : calculate_route_time (day1_route c) > ceiling
      · rw [if_pos h1] at hr
        obtain ⟨pre, c', post, hcs, hf', hr', hpre', hk'⟩ := ih r hr
        refine ⟨c :: pre, c', post, by simp [hcs], hf', hr', ?_, hk'⟩
        intro x hx hfx
        rcases List.mem_cons.mp hx with hxc | hxp
        · exact absurd (hxc ▸ hfx).1 (not_le.mpr h1)
        · exact hpre' x hxp hfx
      · rw [if_neg h1, if_neg h2] at hr
        by_cases h3 : calculate_route_time (day3_route c) > ceiling
        · rw [if_pos h3] at hr
          obtain ⟨pre, c', post, hcs, hf', hr', hpre', hk'⟩ := ih r hr
          refine ⟨c :: pre, c', post, by simp [hcs], hf', hr', ?_, hk'⟩
          intro x hx hfx
          rcases List.mem_cons.mp hx with hxc | hxp
          · exact absurd (hxc ▸ hfx).2.2 (not_le.mpr h3)
          · exact hpre' x hxp hfx
        · rw [if_neg h3] at hr
          have hfc : feasible ceiling c := ⟨not_lt.mp h1, not_lt.mp h2, not_lt.mp h3⟩
          rw [if_pos (show lt_best (totalDist c) none from trivial)] at hr
          rcases search_loop_some ceiling h2 rest (routesOf c) (totalDist c) r hr with
            ⟨hrb, hk⟩ | ⟨pre, c', post, hcs, hf', hr', hlt', hpre', hk'⟩
          · exact ⟨[], c, rest, rfl, hfc, hrb,
              fun x hx => absurd hx (List.not_mem_nil x), hk⟩
          · refine ⟨c :: pre, c', post, by simp [hcs], hf', hr', ?_, hk'⟩
            intro x hx hfx
            rcases List.mem_cons.mp hx with hxc | hxp
            · rw [hxc]; exact hlt'
            · exact hpre' x hxp hfx

theorem sum_routesOf (c : List ℕ × List ℕ) :
    ((routesOf c).map calculate_route_distance).sum = totalDist c := by
  simp [routesOf, totalDist]
  omega

theorem feasible_opt : feasible MAX_TIME_PER_DAY ([2, 3, 5], [1, 6]) := by
  have h720 : ((720 : ℕ) : ℚ) = 60 * MAX_TIME_PER_DAY := by norm_num [MAX_TIME_PER_DAY]
  exact ⟨(route_time_le_iff _ _ _ h720).mpr (by decide),
    (route_time_le_iff _ _ _ h720).mpr (by decide),
    (route_time_le_iff _ _ _ h720).mpr (by decide)⟩

/-- C1: if `find_best_routes` returns a non-`None` combination, its total
distance (the three per-day `calculate_route_distance` values summed) is at
most the total distance of every candidate the search enumerates whose three
day route times are all within the 12-hour ceiling. -/
theorem returned_total_distance_minimal
    (rs : List (List ℕ)) (hrs : find_best_routes = some rs)
    (c : List ℕ × List ℕ) (hc : c ∈ candidates) (hf : feasible MAX_TIME_PER_DAY c) :
    (rs.map calculate_route_distance).sum ≤ totalDist c := by
  have hrs' : search_loop MAX_TIME_PER_DAY candidates none none = some rs := hrs
  obtain ⟨pre, c0, post, hcs, hf0, hr0, hpre, hpost⟩ :=
    search_loop_first MAX_TIME_PER_DAY day2_within_ceiling candidates rs hrs'
  rw [hr0, sum_routesOf]
  rw [hcs] at hc
  rcases List.mem_append.mp hc with hx | hx
  · exact le_of_lt (hpre c hx hf)
  · rcases List.mem_cons.mp hx with hxe | hx
    · rw [hxe]
    · exact hpost c hx hf

theorem returned_total_distance_minimal_witness :
    find_best_routes = some [[0, 2, 3, 5, 7], [7, 4, 7], [7, 1, 6, 0]] ∧
      (([2, 3, 5], [1, 6]) : List ℕ × List ℕ) ∈ candidates ∧
      feasible MAX_TIME_PER_DAY ([2, 3, 5], [1, 6]) ∧
      (([[0, 2, 3, 5, 7], [7, 4, 7], [7, 1, 6, 0]] : List (List ℕ)).map
          calculate_route_distance).sum ≤ totalDist ([2, 3, 5], [1, 6]) :=
  ⟨find_best_routes_eval, by decide, feasible_opt,
    returned_total_distance_minimal _ find_best_routes_eval _ (by decide) feasible_opt⟩

/-- C2: every route in a non-`None` result of `find_best_routes` has
`calculate_route_time` at most `MAX_TIME_PER_DAY`; the bound is non-strict
because candidates are rejected only when a day time is strictly greater. -/
theorem returned_routes_within_ceiling
    (rs : List (List ℕ)) (hrs : find_best_routes = some rs) :
    ∀ r ∈ rs, calculate_route_time r ≤ MAX_TIME_PER_DAY := by
  have hrs' : search_loop MAX_TIME_PER_DAY candidates none none = some rs := hrs
  obtain ⟨pre, c0, post, hcs, hf0, hr0, hpre, hpost⟩ :=
    search_loop_first MAX_TIME_PER_DAY day2_within_ceiling candidates rs hrs'
  intro r hr
  rw [hr0] at hr
  simp only [routesOf, List.mem_cons, List.not_mem_nil, or_false] at hr
  rcases hr with hr | hr | hr
  · rw [hr]; exact hf0.1
  · rw [hr]; exact hf0.2.1
  · rw [hr]; exact hf0.2.2

theorem returned_routes_within_ceiling_witness :
    find_best_routes = some [[0, 2, 3, 5, 7], [7, 4, 7], [7, 1, 6, 0]] ∧
      ∀ r ∈ ([[0, 2, 3, 5, 7], [7, 4, 7], [7, 1, 6, 0]] : List (List ℕ)),
        calculate_route_time r ≤ MAX_TIME_PER_DAY :=
  ⟨find_best_routes_eval, returned_routes_within_ceiling _ find_best_routes_eval⟩

/-- C7: the recorded best is replaced only on strictly smaller total distance,
so a non-`None` result is the candidate at some position of the enumeration
such that every earlier feasible candidate is strictly worse and every feasible
candidate anywhere is no better: the first optimum in enumeration order wins. -/
theorem first_found_wins
    (rs : List (List ℕ)) (hrs : find_best_routes = some rs) :
    ∃ pre c post, candidates = pre ++ c :: post ∧ feasible MAX_TIME_PER_DAY c ∧
      rs = routesOf c ∧
      (∀ x ∈ pre, feasible MAX_TIME_PER_DAY x → totalDist c < totalDist x) ∧
      (∀ x ∈ candidates, feasible MAX_TIME_PER_DAY x → totalDist c ≤ totalDist x) := by
  have hrs' : search_loop MAX_TIME_PER_DAY candidates none none = some rs := hrs
  obtain ⟨pre, c0, post, hcs, hf0, hr0, hpre, hpost⟩ :=
    search_loop_first MAX_TIME_PER_DAY day2_within_ceiling candidates rs hrs'
  refine ⟨pre, c0, post, hcs, hf0, hr0, hpre, ?_⟩
  intro x hx hfx
  rw [hcs] at hx
  rcases List.mem_append.mp hx with hx | hx
  · exact le_of_lt (hpre x hx hfx)
  · rcases List.mem_cons.mp hx with hxe | hx
    · rw [hxe]
    · exact hpost x hx hfx

theorem first_found_wins_witness :
    find_best_routes = some [[0, 2, 3, 5, 7], [7, 4, 7], [7, 1, 6, 0]] ∧
      ∃ pre c post, candidates = pre ++ c :: post ∧ feasible MAX_TIME_PER_DAY c ∧
        ([[0, 2, 3, 5, 7], [7, 4, 7], [7, 1, 6, 0]] : List (List ℕ)) = routesOf c ∧
        (∀ x ∈ pre, feasible MAX_TIME_PER_DAY x → totalDist c < totalDist x) ∧
        (∀ x ∈ candidates, feasible MAX_TIME_PER_DAY x → totalDist c ≤ totalDist x) :=
  ⟨find_best_routes_eval, first_found_wins _ find_best_routes_eval⟩

/-- C4 (amended): whenever the fixed Day-2 route time exceeds the ceiling, the
search returns `None` — but the check happens inside the enumeration loop, not
up front. -/
theorem day2_infeasible_returns_none (ceiling : ℚ)
    (h2 : calculate_route_time day2_route > ceiling) :
    find_best_routes_with ceiling = none :=
  search_loop_none_of_day2 ceiling h2 candidates

theorem day2_infeasible_returns_none_witness :
    calculate_route_time day2_route > (5 : ℚ) ∧ find_best_routes_with 5 = none := by
  have h2 : calculate_route_time day2_route > (5 : ℚ) :=
    (route_time_gt_iff day2_route 5 300 (by norm_num)).mpr (by decide)
  exact ⟨h2, day2_infeasible_returns_none 5 h2⟩

/-- C4 counterexample: with the ceiling set to 5 hours the fixed Day-2 route
exceeds the ceiling and the search does return `None`, but only after the loop
body has examined one candidate split (the fixed-day check sits inside the
innermost loop, after the Day-1 time check), so the `None` is not produced
"without examining any split". -/
theorem day2_check_not_up_front :
    calculate_route_time day2_route > (5 : ℚ) ∧ find_best_routes_with 5 = none ∧
      search_examined 5 candidates = 1 := by
  have h300 : ((300 : ℕ) : ℚ) = 60 * 5 := by norm_num
  refine ⟨(route_time_gt_iff day2_route 5 300 h300).mpr (by decide), ?_, ?_⟩
  · rw [find_best_routes_with, search_loop_eq_60 5 300 h300]
    decide
  · rw [search_examined_eq_60 5 300 h300]
    decide

/-! ### Structure of the candidate enumeration -/

theorem picks_perm : ∀ {pool : List ℕ} {a : ℕ} {rest : List ℕ},
    (a, rest) ∈ picks pool → List.Perm pool (a :: rest) := by
  intro pool
  induction pool with
  | nil => intro a rest h; simp [picks] at h
  | cons b bs ih =>
      intro a rest h
      simp only [picks, List.mem_cons, List.mem_map, Prod.mk.injEq] at h
      rcases h with ⟨rfl, rfl⟩ | ⟨p, hp, rfl, rfl⟩
      · exact List.Perm.refl _
      · exact (List.Perm.cons b (ih hp)).trans (List.Perm.swap p.1 b p.2)

theorem kperms_length : ∀ (k : ℕ) (pool p : List ℕ), p ∈ kperms k pool → p.length = k := by
  intro k
  induction k with
  | zero => intro pool p hp; simp [kperms] at hp; simp [hp]
  | succ n ih =>
      intro pool p hp
      simp only [kperms, List.mem_flatMap, List.mem_map] at hp
      obtain ⟨pr, hpr, q, hq, rfl⟩ := hp
      simp [ih pr.2 q hq]

theorem kperms_perm_filter :
    ∀ (k : ℕ) (pool p : List ℕ), pool.Nodup → p ∈ kperms k pool →
      List.Perm pool (p ++ pool.filter (fun x => x ∉ p)) := by
  intro k
  induction k with
  | zero =>
      intro pool p _ hp
      simp only [kperms, List.mem_singleton] at hp
      subst hp
      simp
  | succ n ih =>
      intro pool p hnd hp
      simp only [kperms, List.mem_flatMap, List.mem_map] at hp
      obtain ⟨pr, hpr, q, hq, rfl⟩ := hp
      have hperm : List.Perm pool (pr.1 :: pr.2) := picks_perm hpr
      have hnd2 : (pr.1 :: pr.2).Nodup := hperm.nodup_iff.mp hnd
      have ha : pr.1 ∉ pr.2 := (List.nodup_cons.mp hnd2).1
      have hndr : pr.2.Nodup := (List.nodup_cons.mp hnd2).2
      have ihq := ih pr.2 q hndr hq
      have h2 : (pr.1 :: pr.2).filter (fun x => x ∉ pr.1 :: q) =
          pr.2.filter (fun x => x ∉ q) := by
        rw [List.filter_cons_of_neg (by simp)]
        apply List.filter_congr
        intro x hx
        have hxa : x ≠ pr.1 := fun h => ha (h ▸ hx)
        simp [hxa]
      have hfil : List.Perm (pool.filter (fun x => x ∉ pr.1 :: q))
          (pr.2.filter (fun x => x ∉ q)) :=
        h2 ▸ (hperm.filter (fun x => decide (x ∉ pr.1 :: q)))
      exact hperm.trans ((List.Perm.cons pr.1 ihq).trans
        (List.Perm.append_left (pr.1 :: q) hfil.symm))

theorem kperms_full (pool p : List ℕ) (hnd : pool.Nodup)
    (hp : p ∈ kperms pool.length pool) : List.Perm p pool := by
  have h := kperms_perm_filter pool.length pool p hnd hp
  have hlen : p.length = pool.length := kperms_length _ _ _ hp
  have h2 : pool.length = p.length + (pool.filter (fun x => x ∉ p)).length := by
    simpa using h.length_eq
  have h3 : (pool.filter (fun x => x ∉ p)).length = 0 := by omega
  have h4 : pool.filter (fun x => x ∉ p) = [] := List.length_eq_zero.mp h3
  rw [h4, List.append_nil] at h
  exact h.symm

theorem places_nodup : places_to_visit.Nodup := by decide

theorem places_length : places_to_visit.length = 5 := by decide

theorem mem_candidates {c : List ℕ × List ℕ} (hc : c ∈ candidates) :
    ∃ k, (1 ≤ k ∧ k ≤ places_to_visit.length - 1) ∧ c.1 ∈ kperms k places_to_visit ∧
      c.2 ∈ kperms (places_to_visit.filter (fun x => x ∉ c.1)).length
        (places_to_visit.filter (fun x => x ∉ c.1)) := by
  simp only [candidates, List.mem_flatMap, List.mem_map] at hc
  obtain ⟨k, hk, d1, hd1, d3, hd3, rfl⟩ := hc
  rw [List.mem_range'] at hk
  obtain ⟨i, hi, rfl⟩ := hk
  exact ⟨1 + 1 * i, ⟨by omega, by omega⟩, hd1, hd3⟩

/-- C3: for every candidate the search produces, the intermediate stops of the
Day-1 route together with those of the Day-3 route are exactly the free
locations, each occurring exactly once. -/
theorem candidate_stops_partition_free
    (c : List ℕ × List ℕ) (hc : c ∈ candidates) :
    List.Perm ((day1_route c).tail.dropLast ++ (day3_route c).tail.dropLast)
      places_to_visit := by
  obtain ⟨k, hk, hd1, hd3⟩ := mem_candidates hc
  have h1 : List.Perm places_to_visit
      (c.1 ++ places_to_visit.filter (fun x => x ∉ c.1)) :=
    kperms_perm_filter k places_to_visit c.1 places_nodup hd1
  have hndf : (places_to_visit.filter (fun x => x ∉ c.1)).Nodup :=
    List.Nodup.filter _ places_nodup
  have h2 : List.Perm c.2 (places_to_visit.filter (fun x => x ∉ c.1)) :=
    kperms_full _ c.2 hndf hd3
  have h3 : (day1_route c).tail.dropLast = c.1 := by simp [day1_route]
  have h4 : (day3_route c).tail.dropLast = c.2 := by simp [day3_route]
  rw [h3, h4]
  exact (List.Perm.append_left c.1 h2).trans h1.symm

theorem candidate_stops_partition_free_witness :
    (([2, 3, 5], [1, 6]) : List ℕ × List ℕ) ∈ candidates ∧
      List.Perm ((day1_route ([2, 3, 5], [1, 6])).tail.dropLast ++
        (day3_route ([2, 3, 5], [1, 6])).tail.dropLast) places_to_visit :=
  ⟨by decide, candidate_stops_partition_free _ (by decide)⟩

/-- C6: split sizes run from 1 to |free| − 1 only, so every candidate has at
least one intermediate stop on Day 1 and at least one on Day 3. -/
theorem candidate_days_nonempty
    (c : List ℕ × List ℕ) (hc : c ∈ candidates) :
    (day1_route c).tail.dropLast ≠ [] ∧ (day3_route c).tail.dropLast ≠ [] := by
  obtain ⟨k, hk, hd1, hd3⟩ := mem_candidates hc
  obtain ⟨hk1, hk2⟩ := hk
  have hlen1 : c.1.length = k := kperms_length _ _ _ hd1
  have h1 : List.Perm places_to_visit
      (c.1 ++ places_to_visit.filter (fun x => x ∉ c.1)) :=
    kperms_perm_filter k places_to_visit c.1 places_nodup hd1
  have hlen3 : c.2.length = (places_to_visit.filter (fun x => x ∉ c.1)).length :=
    kperms_length _ _ _ hd3
  have hsum : places_to_visit.length =
      c.1.length + (places_to_visit.filter (fun x => x ∉ c.1)).length := by
    simpa using h1.length_eq
  have h5 : places_to_visit.length = 5 := places_length
  have h3 : (day1_route c).tail.dropLast = c.1 := by simp [day1_route]
  have h4 : (day3_route c).tail.dropLast = c.2 := by simp [day3_route]
  rw [h3, h4]
  constructor
  · rw [← List.length_pos]
    omega
  · rw [← List.length_pos]
    omega

theorem candidate_days_nonempty_witness :
    (([1], [2, 3, 5, 6]) : List ℕ × List ℕ) ∈ candidates ∧
      (day1_route ([1], [2, 3, 5, 6])).tail.dropLast ≠ [] ∧
      (day3_route ([1], [2, 3, 5, 6])).tail.dropLast ≠ [] :=
  ⟨by decide, candidate_days_nonempty _ (by decide)⟩

/-! ### Route metrics -/

theorem route_time_spec_eq : ∀ r : List ℕ, calculate_route_time r = route_time_spec r := by
  intro r
  induction r with
  | nil => simp [calculate_route_time, route_time_spec]
  | cons a t ih =>
      cases t with
      | nil => simp [calculate_route_time, route_time_spec]
      | cons b rest =>
          have hstep : calculate_route_time (a :: b :: rest) =
              (dist a b : ℚ) / VELOCIDAD_PROMEDIO_KMH + (dwell b : ℚ)
                + calculate_route_time (b :: rest) := rfl
          rw [hstep, ih]
          simp only [route_time_spec, List.tail_cons, List.zip_cons_cons, List.map_cons,
            List.sum_cons, VELOCIDAD_PROMEDIO_KMH]

/-- C5: for a route of length at least two, `calculate_route_time` is the sum
over consecutive pairs (from, to) of `distance(from, to) / 60` plus the dwell
time of the arrival, charged at every arrival including the final anchor. -/
theorem calculate_route_time_matches_spec (route : List ℕ) (h : 2 ≤ route.length) :
    calculate_route_time route = route_time_spec route :=
  route_time_spec_eq route

theorem calculate_route_time_matches_spec_witness :
    2 ≤ ([7, 4, 7] : List ℕ).length ∧
      calculate_route_time [7, 4, 7] = route_time_spec [7, 4, 7] :=
  ⟨by decide, calculate_route_time_matches_spec [7, 4, 7] (by decide)⟩

theorem route_time60_append_mono : ∀ (r : List ℕ) (x : ℕ),
    route_time60 r ≤ route_time60 (r ++ [x]) := by
  intro r x
  induction r with
  | nil => simp [route_time60]
  | cons a t ih =>
      cases t with
      | nil =>
          simp only [List.cons_append, List.nil_append, route_time60]
          omega
      | cons b rest =>
          simp only [List.cons_append, List.append_eq, route_time60] at ih ⊢
          omega

/-- C8: appending one stop to the end of a route never decreases
`calculate_route_time` (all distance and dwell entries are non-negative). -/
theorem route_time_append_mono (route : List ℕ) (x : ℕ) (h : 1 ≤ route.length) :
    calculate_route_time route ≤ calculate_route_time (route ++ [x]) := by
  rw [calculate_route_time_eq_time60, calculate_route_time_eq_time60]
  have hm : route_time60 route ≤ route_time60 (route ++ [x]) := route_time60_append_mono route x
  have hc : (route_time60 route : ℚ) ≤ (route_time60 (route ++ [x]) : ℚ) := by exact_mod_cast hm
  exact (div_le_div_iff_of_pos_right (by norm_num : (0 : ℚ) < 60)).mpr hc

theorem route_time_append_mono_witness :
    1 ≤ ([0, 1] : List ℕ).length ∧
      calculate_route_time [0, 1] ≤ calculate_route_time ([0, 1] ++ [7]) :=
  ⟨by decide, route_time_append_mono [0, 1] 7 (by decide)⟩

/-- C9: the fixed distance table is symmetric with zero diagonal on all
location indices `0..7`. -/
theorem distances_symmetric (a b : ℕ) (ha : a < 8) (hb : b < 8) :
    dist a b = dist b a ∧ dist a a = 0 := by
  have h : ∀ x : Fin 8, ∀ y : Fin 8, dist x.1 y.1 = dist y.1 x.1 ∧ dist x.1 x.1 = 0 := by
    decide
  exact h ⟨a, ha⟩ ⟨b, hb⟩

theorem distances_symmetric_witness :
    (1 : ℕ) < 8 ∧ (7 : ℕ) < 8 ∧ (dist 1 7 = dist 7 1 ∧ dist 1 1 = 0) :=
  ⟨by decide, by decide, distances_symmetric 1 7 (by decide) (by decide)⟩

/-- C10: on routes with fewer than two locations both metrics are total and
return 0. -/
theorem degenerate_routes_zero (route : List ℕ) (h : route.length < 2) :
    calculate_route_time route = 0 ∧ calculate_route_distance route = 0 := by
  cases route with
  | nil => exact ⟨rfl, rfl⟩
  | cons a t =>
      cases t with
      | nil => exact ⟨rfl, rfl⟩
      | cons b rest =>
          exfalso
          simp only [List.length_cons] at h
          omega

theorem degenerate_routes_zero_witness :
    ([3] : List ℕ).length < 2 ∧
      calculate_route_time [3] = 0 ∧ calculate_route_distance [3] = 0 :=
  ⟨by decide, degenerate_routes_zero [3] (by decide)⟩

end SimOptiRutas
